import Mathlib

/-!
Verification of the dispatch scheduler of `src/app.py` (plus its message
collaborator `src/message_generator.py`) against its natural-language
specification.  The Python source is shallowly embedded: pure helpers become
Lean functions, the stateful dispatch loop `SafeSender.run` becomes an
explicit state-passing function producing a trace of observable events, and
the external world (Selenium channel, clock, file system, random draws) is
abstracted into an `Env` oracle record that supplies the outcome of each
external interaction.
-/

namespace GabiZap

/-! ### Validation helpers (src/app.py lines 88-98) -/

/-- Embedding of `normalize_phone` (app.py lines 88-98): keep only the digit
characters of the raw string and require at least 10 of them; `none` models the
Python `None` result for invalid input.  The `pd.isna` guard is modelled by
callers passing an `Option String` for a possibly-missing cell. -/
def normalize_phone (raw : String) : Option String :=
  let s := String.mk (raw.data.filter Char.isDigit)
  if s.length < 10 then none else some s

/-! ### Window gate (src/app.py lines 101-110) -/

/-- Value of one or two digit characters. -/
def digitVal (c : Char) : Option Nat :=
  if c.isDigit then some (c.toNat - 48) else none

/-- Value of a two-digit field. -/
def digitVal2 (c1 c2 : Char) : Option Nat :=
  (digitVal c1).bind fun d1 => (digitVal c2).map fun d2 => d1 * 10 + d2

/-- Combine parsed hour and minute fields, validating the ranges enforced by
`strptime`. -/
def mkHM (hh mm : Option Nat) : Option Nat :=
  hh.bind fun h => mm.bind fun m =>
    if h ≤ 23 ∧ m ≤ 59 then some (60 * h + m) else none

/-- Parsing of an `"HH:MM"` string into minutes since midnight, the embedding
of `datetime.strptime(s, "%H:%M").time()`: comparison of `datetime.time`
values coincides with comparison of minutes since midnight.  `strptime`
accepts one- or two-digit hour and minute fields and rejects anything else
with an exception (`none` here). -/
def parseHM (s : String) : Option Nat :=
  match s.data with
  | [h1, h2, ':', m1, m2] => mkHM (digitVal2 h1 h2) (digitVal2 m1 m2)
  | [h1, ':', m1, m2] => mkHM (digitVal h1) (digitVal2 m1 m2)
  | [h1, h2, ':', m1] => mkHM (digitVal2 h1 h2) (digitVal m1)
  | [h1, ':', m1] => mkHM (digitVal h1) (digitVal m1)
  | _ => none

/-- Embedding of `within_send_windows` (app.py lines 101-110): the gate is open
iff some configured window `(start_s, end_s)` satisfies
`start <= now <= end`.  `now` is the current time of day in minutes since
midnight.  The source contains no wrap-around branch for windows with
`start > end`. -/
def within_send_windows (windows : List (String × String)) (now : Nat) : Bool :=
  windows.any fun w =>
    match parseHM w.1, parseHM w.2 with
    | some s, some e => decide (s ≤ now) && decide (now ≤ e)
    | _, _ => false

/-- Modelled from the spec (section 4.2), for comparison with
`within_send_windows`: a window with `start <= end` matches when
`start <= now <= end`; a window with `start > end` wraps past midnight and
matches when `now >= start` or `now <= end`; the gate is open if any window
matches. -/
def isOpenSpec (windows : List (String × String)) (now : Nat) : Bool :=
  windows.any fun w =>
    match parseHM w.1, parseHM w.2 with
    | some s, some e =>
      if s ≤ e then decide (s ≤ now) && decide (now ≤ e)
      else decide (s ≤ now) || decide (now ≤ e)
    | _, _ => false

/-! ### Queue building (src/app.py lines 306-321, `SafeSender.load_contacts`) -/

/-- Raw spreadsheet row: `contato` is `none` when the `CONTATO` cell is
missing (pandas `NaN`), mirroring the first `dropna(subset=['CONTATO'])`. -/
structure RawRow where
  contato : Option String
  nome : String
  deriving DecidableEq, Repr

/-- Validated queue row after normalization. -/
structure Row where
  contato : String
  nome : String
  deriving DecidableEq, Repr

/-- Embedding of `SafeSender.load_contacts` (app.py lines 306-321):
drop rows with a missing `CONTATO` cell, normalize each contact and drop the
rows whose normalization fails, then, when the sent-log file exists
(`sentLog = some sent`), remove every row whose contact is in the sent set,
and finally reorder the rows when `randomize_order` is set.  `reorder` is the
oracle for `df.sample(frac=1)`. -/
def load_contacts (raw : List RawRow) (sentLog : Option (List String))
    (randomize : Bool) (reorder : List Row → List Row) : List Row :=
  let rows1 := raw.filterMap fun r =>
    r.contato.bind fun c => (normalize_phone c).map fun nc => Row.mk nc r.nome
  let rows2 :=
    match sentLog with
    | some sent => rows1.filter fun r => !(sent.contains r.contato)
    | none => rows1
  if randomize then reorder rows2 else rows2

/-! ### Checkpoint store (src/app.py lines 277-286, 360-361) -/

/-- Embedding of `load_checkpoint` (app.py lines 282-286): when the checkpoint
file exists its JSON dictionary is returned, otherwise the empty dictionary.
A JSON dictionary is modelled as an association list from keys to integers. -/
def load_checkpoint (file : Option (List (String × Int))) : List (String × Int) :=
  match file with
  | some d => d
  | none => []

/-- Embedding of Python `dict.get(key, dflt)` on the integer-valued
dictionaries used for checkpoints. -/
def dict_get_int (d : List (String × Int)) (key : String) (dflt : Int) : Int :=
  match d.find? fun kv => kv.1 == key with
  | some kv => kv.2
  | none => dflt

/-- The resume offset computed by `SafeSender.run` (app.py line 361):
`self.checkpoint.get("last_index", -1)` on the loaded checkpoint file. -/
def effective_last_index (file : Option (List (String × Int))) : Int :=
  dict_get_int (load_checkpoint file) "last_index" (-1)

/-! ### Dedup ledger (src/app.py lines 337-349, `SafeSender.persist_sent`) -/

/-- One row of the sent log, the embedding of the dictionaries
`{"NOME": ..., "CONTATO": ..., "TIMESTAMP": ...}` appended at app.py
line 402. -/
structure SentRecord where
  nome : String
  contato : String
  timestamp : String
  deriving DecidableEq, Repr

/-- Embedding of pandas `DataFrame.drop_duplicates(subset=['CONTATO'])` with
its default `keep='first'`: keep the first row for each `CONTATO` value, in
order.  `seen` accumulates the contact keys already kept. -/
def drop_duplicates_go (seen : List String) : List SentRecord → List SentRecord
  | [] => []
  | r :: rs =>
    if seen.contains r.contato then drop_duplicates_go seen rs
    else r :: drop_duplicates_go (r.contato :: seen) rs

/-- Pandas `drop_duplicates(subset=['CONTATO'])` on a sent-log table. -/
def drop_duplicates (l : List SentRecord) : List SentRecord :=
  drop_duplicates_go [] l

/-- Embedding of `SafeSender.persist_sent` (app.py lines 337-349): the stored
sent-log file before the call is `stored` (`none` when the file does not
exist); the result is the file contents after the call.  An empty batch
returns early without writing; when the file exists the old and new rows are
concatenated and de-duplicated by `CONTATO`; when it does not exist the batch
is written as-is. -/
def persist_sent (stored : Option (List SentRecord)) (sent_records : List SentRecord) :
    Option (List SentRecord) :=
  if sent_records.isEmpty then stored
  else
    match stored with
    | some old => some (drop_duplicates (old ++ sent_records))
    | none => some sent_records

/-- Number of rows of a sent-log table carrying the given contact key. -/
def countContato : List SentRecord → String → Nat
  | [], _ => 0
  | r :: l, c => (if r.contato == c then 1 else 0) + countContato l c

/-- First row of a sent-log table carrying the given contact key. -/
def findContato : List SentRecord → String → Option SentRecord
  | [], _ => none
  | r :: l, c => if r.contato == c then some r else findContato l c

/-! ### Retry controller (src/app.py lines 256-271, `retry_with_backoff`) -/

/-- Result of running the retry wrapper: `result = some (.ok a)` models a
normal return, `result = some (.error e)` models `raise last_exc` with a real
exception, and `result = none` models the degenerate `raise None` reached
when `attempts = 0`.  `calls` counts invocations of the wrapped function and
`sleeps` records the back-off sleep durations in order. -/
structure RetryRes (E A : Type) where
  result : Option (Except E A)
  calls : Nat
  sleeps : List ℚ

/-- Embedding of the `for attempt in range(1, attempts + 1)` loop of
`retry_with_backoff` (app.py lines 258-269).  `fn i` is the outcome of the
wrapped function on its i-th invocation (1-based), `jit i` the jitter factor
`random.uniform(0.8, 1.2)` drawn after a failing attempt `i`.  On a failing
attempt the loop records the sleep `base * 2 ^ (attempt - 1) * jitter` (the
source sleeps after every failure, including the last one) and continues. -/
def retryGo (fn : Nat → Except E A) (base : ℚ) (jit : Nat → ℚ) :
    Nat → Nat → Option E → RetryRes E A
  | _, 0, last => ⟨last.map Except.error, 0, []⟩
  | attempt, r + 1, _ =>
    match fn attempt with
    | .ok a => ⟨some (.ok a), 1, []⟩
    | .error e =>
      let rr := retryGo fn base jit (attempt + 1) r (some e)
      ⟨rr.result, rr.calls + 1, (base * 2 ^ (attempt - 1) * jit attempt) :: rr.sleeps⟩

/-- Embedding of `retry_with_backoff(attempts, base_delay)` applied to a
function: run up to `attempts` attempts starting at attempt number 1 with no
last exception recorded. -/
def retry_with_backoff (fn : Nat → Except E A) (attempts : Nat) (base : ℚ)
    (jit : Nat → ℚ) : RetryRes E A :=
  retryGo fn base jit 1 attempts none

/-! ### Sending primitives (src/app.py lines 215-250, 351-353) -/

/-- Embedding of `send_whatsapp_message` (app.py lines 215-250): the whole
body is wrapped in `try/except Exception` returning `False`, so the function
always returns a boolean and never raises; the boolean outcome of the
underlying Selenium interaction is supplied by the `adapter` oracle.  The
error type is `Unit` only so the value can be fed to the retry wrapper; no
`.error` value is ever produced. -/
def send_whatsapp_message (adapter : Nat → Bool) (phone : Nat) : Except Unit Bool :=
  Except.ok (adapter phone)

/-- Embedding of `SafeSender.safe_send_once` (app.py lines 351-353):
`send_whatsapp_message` wrapped by `retry_with_backoff(attempts=3,
base_delay=3.0)`. -/
def safe_send_once (adapter : Nat → Bool) (jit : Nat → ℚ) (phone : Nat) :
    RetryRes Unit Bool :=
  retry_with_backoff (fun _ => send_whatsapp_message adapter phone) 3 3 jit

/-! ### Dispatch loop (src/app.py lines 355-416, `SafeSender.run`)

The loop is embedded as an explicit state machine over queue positions
`0, 1, ..., n-1` (the rows of the dataframe returned by `load_contacts`,
re-indexed by `reset_index(drop=True)`).  Everything the loop observes from
the outside world is collected in an `Env` oracle:

* `sendOk idx` — the boolean returned by `safe_send_once` for the recipient
  at queue position `idx` (the retry wrapper never raises, because
  `send_whatsapp_message` catches every exception and returns `False`, so
  the `try/except` at app.py lines 395-399 reduces to this boolean);
* `polls idx` — how many iterations the window-wait `while` loop at app.py
  lines 378-381 executes for position `idx` before the send window opens;
* `ckptOk j` — whether the j-th `save_checkpoint` file write of the run
  succeeds; a failed write models an I/O exception, which propagates out of
  `run` and aborts it.

The loop additionally emits a trace of observable events, so that ordering
properties ("a cooldown happens before the next send attempt") become
statements about lists. -/

/-- Oracle for the external world seen by one run of `SafeSender.run`. -/
structure Env where
  sendOk : Nat → Bool
  polls : Nat → Nat
  ckptOk : Nat → Bool

/-- The configuration fields `SafeSender.run` actually reads for control
decisions: `max_messages_per_hour` and `max_messages_per_day` (app.py lines
385, 389).  The pacing intervals only parameterize sleep durations and are
abstracted into the `pace` event. -/
structure Cfg where
  maxPerHour : Nat
  maxPerDay : Nat
  deriving DecidableEq, Repr

/-- Observable events of one run, in program order.

* `proc idx` — the loop body is entered for queue position `idx` (the
  message for that recipient is rendered, app.py lines 369-371);
* `ckptSave v` — a `save_checkpoint` write of `{"last_index": v}` completed
  (app.py lines 380 and 406);
* `sleepPoll` — the 60 s sleep of the window-wait loop (app.py line 381);
* `cooldown s` — the `human_sleep(600, 600, cfg)` hourly cooldown of `s`
  seconds (app.py line 387);
* `hourlyReset` — `self.hourly_count = 0` (app.py line 388);
* `sendAttempt idx ok` — `safe_send_once` for position `idx` finished with
  boolean `ok` (app.py line 396);
* `counterInc` — `update_counters(1)` (app.py line 403);
* `pace` — the humanized inter-recipient wait (app.py line 411);
* `blockPause s` — a long block pause of `s` seconds; no statement in
  `SafeSender.run` performs such a pause, so no rule of the model emits it;
* `flush n` — `persist_sent` flushed a batch of `n` records (app.py
  line 415). -/
inductive Event where
  | proc (idx : Nat)
  | ckptSave (v : Int)
  | sleepPoll
  | cooldown (secs : Nat)
  | hourlyReset
  | sendAttempt (idx : Nat) (ok : Bool)
  | counterInc
  | pace
  | blockPause (secs : Nat)
  | flush (n : Nat)
  deriving DecidableEq, Repr

/-- Mutable state of `SafeSender.run`: the two rate counters (app.py lines
298-299), the in-memory `sent_records` batch (stored as queue positions, app.
py line 358), the value of the last successfully written checkpoint this run
(`none` before the first write), and the number of checkpoint write attempts
so far (used to index `Env.ckptOk`). -/
structure St where
  hourly : Nat
  daily : Nat
  batch : List Nat
  ckpt : Option Int
  wc : Nat
  deriving DecidableEq, Repr

/-- Result of the window-wait loop: its trace, the state after it, and
whether it completed (`ok = false` means a checkpoint write raised). -/
structure PollRes where
  tr : List Event
  st : St
  ok : Bool
  deriving DecidableEq, Repr

/-- Embedding of the window-wait loop at app.py lines 375-382 for queue
position `idx`, executing `p` iterations of `save_checkpoint(...,
{"last_index": idx - 1}); time.sleep(60)`.  The number of iterations is
dictated by the external clock, hence supplied by `Env.polls`. -/
def pollLoop (env : Env) (idx : Nat) : Nat → St → PollRes
  | 0, st => ⟨[], st, true⟩
  | p + 1, st =>
    if env.ckptOk st.wc then
      let pr := pollLoop env idx p
        { st with ckpt := some ((idx : Int) - 1), wc := st.wc + 1 }
      ⟨Event.ckptSave ((idx : Int) - 1) :: Event.sleepPoll :: pr.tr, pr.st, pr.ok⟩
    else ⟨[], { st with wc := st.wc + 1 }, false⟩

/-- How one loop-body execution ended: fall through to the next queue
position, `break` on the daily cap (app.py line 391), or abort on a
persistence exception. -/
inductive StepExit where
  | cont
  | dailyBreak
  | fatal
  deriving DecidableEq, Repr

/-- Result of one loop-body execution. -/
structure StepRes where
  tr : List Event
  st : St
  ex : StepExit
  deriving DecidableEq, Repr

/-- Trace of the hourly-cap branch at app.py lines 385-388: the 600 s
cooldown `human_sleep(600, 600, cfg)` followed by the counter reset, executed
exactly when `hourly_count` has reached the hourly cap. -/
def hourlyTr (cfg : Cfg) (st1 : St) : List Event :=
  if cfg.maxPerHour ≤ st1.hourly then [Event.cooldown 600, Event.hourlyReset] else []

/-- State after the hourly-cap branch: `hourly_count` zeroed when the cap was
reached, untouched otherwise. -/
def hourlySt (cfg : Cfg) (st1 : St) : St :=
  if cfg.maxPerHour ≤ st1.hourly then { st1 with hourly := 0 } else st1

/-- Trace of the send attempt (app.py lines 394-403): the `safe_send_once`
outcome, followed by `update_counters(1)` on success. -/
def sendTr (env : Env) (idx : Nat) : List Event :=
  Event.sendAttempt idx (env.sendOk idx) ::
    (if env.sendOk idx then [Event.counterInc] else [])

/-- State after the send attempt: on success the recipient is appended to the
in-memory batch and both counters are bumped. -/
def sendSt (env : Env) (idx : Nat) (st2 : St) : St :=
  if env.sendOk idx then
    { st2 with batch := st2.batch ++ [idx],
               hourly := st2.hourly + 1, daily := st2.daily + 1 }
  else st2

/-- The portion of one loop-body execution after the window wait (app.py
lines 384-411): hourly cooldown-and-reset, daily-cap `break`, the send with
its bookkeeping, the per-recipient checkpoint write, and the humanized
pause. -/
def rateAndSend (env : Env) (cfg : Cfg) (idx : Nat) (hasNext : Bool) (st1 : St) :
    StepRes :=
  if cfg.maxPerDay ≤ (hourlySt cfg st1).daily then
    ⟨hourlyTr cfg st1, hourlySt cfg st1, .dailyBreak⟩
  else if env.ckptOk (sendSt env idx (hourlySt cfg st1)).wc then
    ⟨hourlyTr cfg st1 ++ (sendTr env idx ++ (Event.ckptSave (idx : Int) ::
        (if hasNext then [Event.pace] else []))),
      { (sendSt env idx (hourlySt cfg st1)) with
        ckpt := some (idx : Int)
        wc := (sendSt env idx (hourlySt cfg st1)).wc + 1 }, .cont⟩
  else
    ⟨hourlyTr cfg st1 ++ sendTr env idx,
      { (sendSt env idx (hourlySt cfg st1)) with
        wc := (sendSt env idx (hourlySt cfg st1)).wc + 1 }, .fatal⟩

/-- Embedding of one non-skipped iteration of the `for idx, row in ...` loop
of `SafeSender.run` (app.py lines 369-411) at queue position `idx`, in source
order: render the message (`proc idx`), wait for the send window (aborting if
a checkpoint write fails there), then `rateAndSend`. -/
def step (env : Env) (cfg : Cfg) (idx : Nat) (hasNext : Bool) (st : St) : StepRes :=
  if (pollLoop env idx (env.polls idx) st).ok = false then
    ⟨Event.proc idx :: (pollLoop env idx (env.polls idx) st).tr,
      (pollLoop env idx (env.polls idx) st).st, .fatal⟩
  else
    ⟨Event.proc idx :: ((pollLoop env idx (env.polls idx) st).tr ++
        (rateAndSend env cfg idx hasNext (pollLoop env idx (env.polls idx) st).st).tr),
      (rateAndSend env cfg idx hasNext (pollLoop env idx (env.polls idx) st).st).st,
      (rateAndSend env cfg idx hasNext (pollLoop env idx (env.polls idx) st).st).ex⟩

/-- How the run ended: queue exhausted, daily cap reached, or aborted by a
persistence exception. -/
inductive Exit where
  | exhausted
  | dailyCap
  | fatal
  deriving DecidableEq, Repr

/-- Result of the loop (and of the whole run): trace, final state, outcome. -/
structure RunRes where
  trace : List Event
  st : St
  exit : Exit
  deriving DecidableEq, Repr

/-- Embedding of the `for` loop of `SafeSender.run` over the remaining queue
positions: positions `idx` with `idx <= last_index` are skipped by the
checkpoint check (app.py lines 365-367, no events), all others execute the
loop body. `n` is the total queue length, used for the `idx < len(df) - 1`
pacing condition. -/
def runLoopAux (env : Env) (cfg : Cfg) (n : Nat) (lastIndex : Int) :
    List Nat → St → RunRes
  | [], st => ⟨[], st, .exhausted⟩
  | idx :: rest, st =>
    if (idx : Int) ≤ lastIndex then runLoopAux env cfg n lastIndex rest st
    else
      match (step env cfg idx (decide (idx + 1 < n)) st).ex with
      | .cont =>
        ⟨(step env cfg idx (decide (idx + 1 < n)) st).tr ++
            (runLoopAux env cfg n lastIndex rest
              (step env cfg idx (decide (idx + 1 < n)) st).st).trace,
          (runLoopAux env cfg n lastIndex rest
            (step env cfg idx (decide (idx + 1 < n)) st).st).st,
          (runLoopAux env cfg n lastIndex rest
            (step env cfg idx (decide (idx + 1 < n)) st).st).exit⟩
      | .dailyBreak =>
        ⟨(step env cfg idx (decide (idx + 1 < n)) st).tr,
          (step env cfg idx (decide (idx + 1 < n)) st).st, .dailyCap⟩
      | .fatal =>
        ⟨(step env cfg idx (decide (idx + 1 < n)) st).tr,
          (step env cfg idx (decide (idx + 1 < n)) st).st, .fatal⟩

/-- State at the start of a run: zero counters, empty batch, no checkpoint
written yet this run. -/
def initSt : St := ⟨0, 0, [], none, 0⟩

/-- Embedding of `SafeSender.run` (app.py lines 355-416) for a queue of `n`
recipients and a resume offset `lastIndex`: execute the loop over positions
`0..n-1`, then — unless the loop aborted with a propagating exception —
flush the accumulated batch via `persist_sent`, which is a no-op for an
empty batch (app.py lines 413-415). -/
def runSender (env : Env) (cfg : Cfg) (n : Nat) (lastIndex : Int) : RunRes :=
  match (runLoopAux env cfg n lastIndex (List.range n) initSt).exit with
  | .fatal => runLoopAux env cfg n lastIndex (List.range n) initSt
  | _ =>
    if (runLoopAux env cfg n lastIndex (List.range n) initSt).st.batch.isEmpty then
      runLoopAux env cfg n lastIndex (List.range n) initSt
    else
      ⟨(runLoopAux env cfg n lastIndex (List.range n) initSt).trace ++
          [Event.flush (runLoopAux env cfg n lastIndex
            (List.range n) initSt).st.batch.length],
        (runLoopAux env cfg n lastIndex (List.range n) initSt).st,
        (runLoopAux env cfg n lastIndex (List.range n) initSt).exit⟩

/-- Number of `blockPause` events in a trace. -/
def countBlockPause (tr : List Event) : Nat :=
  (tr.filter fun e => match e with | .blockPause _ => true | _ => false).length

/-- Number of `flush` events in a trace. -/
def countFlush (tr : List Event) : Nat :=
  (tr.filter fun e => match e with | .flush _ => true | _ => false).length

/-- Queue position of the first `proc` event of a trace, if any. -/
def firstProc (tr : List Event) : Option Nat :=
  (tr.filterMap fun e => match e with | .proc i => some i | _ => none).head?

/-! ### Concrete oracles used by the closed instances below -/

/-- Benign world: every send succeeds, the send window is always open, every
checkpoint write succeeds. -/
def envAll : Env := ⟨fun _ => true, fun _ => 0, fun _ => true⟩

/-- World whose every checkpoint write raises an I/O exception. -/
def envCkptFail : Env := ⟨fun _ => true, fun _ => 0, fun _ => false⟩

/-- The rate caps of `DEFAULT_CONFIG` (app.py lines 51-52). -/
def cfgDefault : Cfg := ⟨60, 300⟩

/-- A configuration with `max_messages_per_hour = 1` and
`max_messages_per_day = 1`. -/
def cfgTiny : Cfg := ⟨1, 1⟩

/-! ### Lemmas about the retry controller -/

theorem retryGo_zero (fn : Nat → Except E A) (base : ℚ) (jit : Nat → ℚ)
    (att : Nat) (last : Option E) :
    retryGo fn base jit att 0 last = ⟨last.map Except.error, 0, []⟩ := rfl

theorem retryGo_succ (fn : Nat → Except E A) (base : ℚ) (jit : Nat → ℚ)
    (att r : Nat) (last : Option E) :
    retryGo fn base jit att (r + 1) last =
      match fn att with
      | .ok a => ⟨some (.ok a), 1, []⟩
      | .error e =>
        ⟨(retryGo fn base jit (att + 1) r (some e)).result,
         (retryGo fn base jit (att + 1) r (some e)).calls + 1,
         (base * 2 ^ (att - 1) * jit att) ::
           (retryGo fn base jit (att + 1) r (some e)).sleeps⟩ := rfl

theorem retryGo_succ_ok (fn : Nat → Except E A) (base : ℚ) (jit : Nat → ℚ)
    (att r : Nat) (last : Option E) (a : A) (h : fn att = .ok a) :
    retryGo fn base jit att (r + 1) last = ⟨some (.ok a), 1, []⟩ := by
  rw [retryGo_succ, h]

theorem retryGo_succ_error (fn : Nat → Except E A) (base : ℚ) (jit : Nat → ℚ)
    (att r : Nat) (last : Option E) (e : E) (h : fn att = .error e) :
    retryGo fn base jit att (r + 1) last =
      ⟨(retryGo fn base jit (att + 1) r (some e)).result,
       (retryGo fn base jit (att + 1) r (some e)).calls + 1,
       (base * 2 ^ (att - 1) * jit att) ::
         (retryGo fn base jit (att + 1) r (some e)).sleeps⟩ := by
  rw [retryGo_succ, h]

theorem retryGo_calls_le (fn : Nat → Except E A) (base : ℚ) (jit : Nat → ℚ) :
    ∀ (rem att : Nat) (last : Option E),
      (retryGo fn base jit att rem last).calls ≤ rem := by
  intro rem
  induction rem with
  | zero => intro att last; simp [retryGo_zero]
  | succ r ih =>
    intro att last
    cases h : fn att with
    | ok a => simp [retryGo_succ_ok fn base jit att r last a h]
    | error e =>
      rw [retryGo_succ_error fn base jit att r last e h]
      exact Nat.succ_le_succ (ih (att + 1) (some e))

theorem retryGo_failed_before (fn : Nat → Except E A) (base : ℚ) (jit : Nat → ℚ) :
    ∀ (rem att : Nat) (last : Option E) (d : Nat),
      d + 1 < (retryGo fn base jit att rem last).calls →
      ∃ e, fn (att + d) = .error e := by
  intro rem
  induction rem with
  | zero => intro att last d hd; simp [retryGo_zero] at hd
  | succ r ih =>
    intro att last d hd
    cases h : fn att with
    | ok a => rw [retryGo_succ_ok fn base jit att r last a h] at hd; simp at hd
    | error e =>
      rw [retryGo_succ_error fn base jit att r last e h] at hd
      simp only at hd
      cases d with
      | zero => exact ⟨e, by simpa using h⟩
      | succ d' =>
        obtain ⟨e', he'⟩ := ih (att + 1) (some e) d' (by omega)
        refine ⟨e', ?_⟩
        rwa [show att + 1 + d' = att + (d' + 1) by omega] at he'

theorem retryGo_success (fn : Nat → Except E A) (base : ℚ) (jit : Nat → ℚ) :
    ∀ (rem att : Nat) (last : Option E) (a : A),
      (retryGo fn base jit att rem last).result = some (.ok a) →
      1 ≤ (retryGo fn base jit att rem last).calls ∧
      fn (att + (retryGo fn base jit att rem last).calls - 1) = .ok a := by
  intro rem
  induction rem with
  | zero =>
    intro att last a ha
    cases last <;> simp [retryGo_zero] at ha
  | succ r ih =>
    intro att last a ha
    cases h : fn att with
    | ok a' =>
      rw [retryGo_succ_ok fn base jit att r last a' h] at ha ⊢
      simp only [Option.some.injEq, Except.ok.injEq] at ha
      subst ha
      exact ⟨le_refl 1, by simpa using h⟩
    | error e =>
      rw [retryGo_succ_error fn base jit att r last e h] at ha ⊢
      replace ha : (retryGo fn base jit (att + 1) r (some e)).result =
          some (.ok a) := ha
      have hih := ih (att + 1) (some e) a ha
      constructor
      · show 1 ≤ (retryGo fn base jit (att + 1) r (some e)).calls + 1
        omega
      · show fn (att + ((retryGo fn base jit (att + 1) r (some e)).calls + 1) - 1) =
          .ok a
        have h2 := hih.2
        rwa [show att + ((retryGo fn base jit (att + 1) r (some e)).calls + 1) - 1 =
          att + 1 + (retryGo fn base jit (att + 1) r (some e)).calls - 1 by omega]

theorem retryGo_all_fail (fn : Nat → Except E A) (base : ℚ) (jit : Nat → ℚ) :
    ∀ (rem att : Nat) (last : Option E),
      (∀ i, att ≤ i → i < att + rem → ∃ e, fn i = .error e) →
      (retryGo fn base jit att rem last).calls = rem ∧
      (0 < rem → ∃ e, fn (att + rem - 1) = .error e ∧
        (retryGo fn base jit att rem last).result = some (.error e)) := by
  intro rem
  induction rem with
  | zero => intro att last _; simp [retryGo_zero]
  | succ r ih =>
    intro att last hall
    obtain ⟨e, he⟩ := hall att (le_refl att) (by omega)
    rw [retryGo_succ_error fn base jit att r last e he]
    have ihr := ih (att + 1) (some e) (fun i h1 h2 => hall i (by omega) (by omega))
    have hc := ihr.1
    constructor
    · show (retryGo fn base jit (att + 1) r (some e)).calls + 1 = r + 1
      omega
    intro _
    cases r with
    | zero =>
      refine ⟨e, by simpa using he, ?_⟩
      simp [retryGo_zero]
    | succ r' =>
      obtain ⟨e', he', hres⟩ := ihr.2 (by omega)
      refine ⟨e', ?_, hres⟩
      rwa [show att + 1 + (r' + 1) - 1 = att + (r' + 1 + 1) - 1 by omega] at he'

theorem retryGo_sleeps (fn : Nat → Except E A) (base : ℚ) (jit : Nat → ℚ) :
    ∀ (rem att : Nat) (last : Option E), 1 ≤ att →
      ∀ j : Nat, j < (retryGo fn base jit att rem last).sleeps.length →
        (retryGo fn base jit att rem last).sleeps[j]? =
          some (base * 2 ^ (att - 1 + j) * jit (att + j)) := by
  intro rem
  induction rem with
  | zero => intro att last _ j hj; simp [retryGo_zero] at hj
  | succ r ih =>
    intro att last hatt j hj
    cases h : fn att with
    | ok a => rw [retryGo_succ_ok fn base jit att r last a h] at hj; simp at hj
    | error e =>
      rw [retryGo_succ_error fn base jit att r last e h] at hj ⊢
      replace hj : j < ((base * 2 ^ (att - 1) * jit att) ::
        (retryGo fn base jit (att + 1) r (some e)).sleeps).length := hj
      simp only [List.length_cons] at hj
      cases j with
      | zero => simp
      | succ j' =>
        have hih := ih (att + 1) (some e) (by omega) j' (by omega)
        show ((base * 2 ^ (att - 1) * jit att) ::
          (retryGo fn base jit (att + 1) r (some e)).sleeps)[j' + 1]? =
            some (base * 2 ^ (att - 1 + (j' + 1)) * jit (att + (j' + 1)))
        rw [List.getElem?_cons_succ, hih,
          show att + 1 - 1 + j' = att - 1 + (j' + 1) by omega,
          show att + 1 + j' = att + (j' + 1) by omega]

/-! ### Claim-level contract of the retry controller -/

/-- Contract of `retry_with_backoff fn attempts base jit`: at most `attempts`
invocations; every invocation before the last one failed; when the wrapper
returns a success it is the value of the last invocation; when every attempt
fails the wrapper makes exactly `attempts` invocations and surfaces the
failure of the last one; and the j-th recorded back-off sleep (0-based) is
`base * 2 ^ j * jit (j + 1)`, i.e. `base_delay * 2 ^ (attemptNumber - 1) *
jitter` for the failing attempt `j + 1`. -/
def retryContract (E A : Type) (fn : Nat → Except E A) (attempts : Nat)
    (base : ℚ) (jit : Nat → ℚ) : Prop :=
  (retry_with_backoff fn attempts base jit).calls ≤ attempts ∧
  (∀ i, 1 ≤ i → i < (retry_with_backoff fn attempts base jit).calls →
    ∃ e, fn i = .error e) ∧
  (∀ a, (retry_with_backoff fn attempts base jit).result = some (.ok a) →
    1 ≤ (retry_with_backoff fn attempts base jit).calls ∧
    fn (retry_with_backoff fn attempts base jit).calls = .ok a) ∧
  ((∀ i, 1 ≤ i → i ≤ attempts → ∃ e, fn i = .error e) →
    (retry_with_backoff fn attempts base jit).calls = attempts ∧
    (1 ≤ attempts → ∃ e, fn attempts = .error e ∧
      (retry_with_backoff fn attempts base jit).result = some (.error e))) ∧
  (∀ j, j < (retry_with_backoff fn attempts base jit).sleeps.length →
    (retry_with_backoff fn attempts base jit).sleeps[j]? =
      some (base * 2 ^ j * jit (j + 1)))

/-- A function that fails on its first two invocations and succeeds on the
third (and later), used for the concrete retry scenario of the spec. -/
def failTwice : Nat → Except Nat Nat :=
  fun i => if i ≤ 2 then .error i else .ok 0

/-- A function that fails on every invocation, used for the concrete retry
scenario of the spec. -/
def failAlways : Nat → Except Nat Nat :=
  fun _ => .error 7

/-- C9: the retry controller calls `fn` at most `attempts` times, sleeps
`base * 2 ^ (attemptNumber - 1) * jitter` after a failure, returns a success
as soon as one call succeeds, and surfaces the last failure when all calls
fail; in particular a function failing twice then succeeding with
`attempts = 3` yields success after exactly 3 invocations, and a function
always failing with `attempts = 2` surfaces the last failure after exactly 2
invocations. -/
theorem c9_retry_controller :
    (∀ (E A : Type) (fn : Nat → Except E A) (attempts : Nat) (base : ℚ)
      (jit : Nat → ℚ), retryContract E A fn attempts base jit) ∧
    (retry_with_backoff failTwice 3 3 (fun _ => 1)).result = some (.ok 0) ∧
    (retry_with_backoff failTwice 3 3 (fun _ => 1)).calls = 3 ∧
    (retry_with_backoff failAlways 2 3 (fun _ => 1)).result = some (.error 7) ∧
    (retry_with_backoff failAlways 2 3 (fun _ => 1)).calls = 2 := by
  refine ⟨?_, rfl, rfl, rfl, rfl⟩
  intro E A fn attempts base jit
  unfold retryContract retry_with_backoff
  refine ⟨retryGo_calls_le fn base jit attempts 1 none, ?_, ?_, ?_, ?_⟩
  · intro i h1 hi
    obtain ⟨e, he⟩ := retryGo_failed_before fn base jit attempts 1 none (i - 1)
      (by omega)
    exact ⟨e, by rwa [show 1 + (i - 1) = i by omega] at he⟩
  · intro a ha
    have h := retryGo_success fn base jit attempts 1 none a ha
    exact ⟨h.1, by
      have h2 := h.2
      rwa [show 1 + (retryGo fn base jit 1 attempts none).calls - 1 =
        (retryGo fn base jit 1 attempts none).calls by omega] at h2⟩
  · intro hall
    have h := retryGo_all_fail fn base jit attempts 1 none
      (fun i hi1 hi2 => hall i hi1 (by omega))
    refine ⟨h.1, ?_⟩
    intro h1
    obtain ⟨e, he, hres⟩ := h.2 (by omega)
    exact ⟨e, by rwa [show 1 + attempts - 1 = attempts by omega] at he, hres⟩
  · intro j hj
    have h := retryGo_sleeps fn base jit attempts 1 none (le_refl 1) j hj
    rwa [show (1 : Nat) - 1 + j = j by omega, show 1 + j = j + 1 by omega] at h

/-- Witness for C9 at a concrete instance. -/
theorem c9_retry_controller_witness :
    retryContract Nat Nat failTwice 3 3 (fun _ => 1) :=
  c9_retry_controller.1 Nat Nat failTwice 3 3 (fun _ => 1)

/-! ### Claim C3: a `False` return from the channel adapter is not retried -/

/-- C3 counterexample: with an adapter that always returns `False` and the
configured 3 attempts, `safe_send_once` invokes the wrapped send exactly
once — the false return is delivered immediately, with no back-off sleeps —
not up to 3 times as the claim states. -/
theorem c3_counterexample :
    (safe_send_once (fun _ => false) (fun _ => 1) 0).calls = 1 ∧
    (safe_send_once (fun _ => false) (fun _ => 1) 0).result =
      some (.ok false) ∧
    (safe_send_once (fun _ => false) (fun _ => 1) 0).sleeps = [] ∧
    (safe_send_once (fun _ => false) (fun _ => 1) 0).calls ≠ 3 := by
  refine ⟨rfl, rfl, rfl, by decide⟩

/-- C3 amended: `retry_with_backoff` re-invokes only on raised exceptions;
`send_whatsapp_message` catches every exception and returns a boolean, so a
`False` return is delivered to the caller from the first invocation, with no
retry and no back-off, and the recipient is immediately treated as a
permanent per-recipient failure.  Stated both for `safe_send_once` and for
the wrapper applied to any never-raising function. -/
theorem c3_false_return_not_retried :
    (∀ (adapter : Nat → Bool) (jit : Nat → ℚ) (phone : Nat),
      safe_send_once adapter jit phone =
        ⟨some (.ok (adapter phone)), 1, []⟩) ∧
    (∀ (E A : Type) (fn : Nat → Except E A) (attempts : Nat) (base : ℚ)
      (jit : Nat → ℚ) (v : A), (∀ i, fn i = .ok v) → 1 ≤ attempts →
      retry_with_backoff fn attempts base jit = ⟨some (.ok v), 1, []⟩) := by
  constructor
  · intro adapter jit phone
    show retryGo (fun _ => send_whatsapp_message adapter phone) 3 jit 1 3 none = _
    rw [retryGo_succ_ok (fun _ => send_whatsapp_message adapter phone) 3 jit 1 2 none
      (adapter phone) rfl]
  · intro E A fn attempts base jit v hv h1
    obtain ⟨r, rfl⟩ : ∃ r, attempts = r + 1 := ⟨attempts - 1, by omega⟩
    exact retryGo_succ_ok fn base jit 1 r none v (hv 1)

/-- Witness for C3's amended theorem at a concrete instance. -/
theorem c3_false_return_not_retried_witness :
    retry_with_backoff (fun _ => (Except.ok false : Except Unit Bool)) 3 3
      (fun _ => 1) = ⟨some (.ok false), 1, []⟩ :=
  c3_false_return_not_retried.2 Unit Bool (fun _ => .ok false) 3 3 (fun _ => 1)
    false (fun _ => rfl) (by decide)

/-! ### Claim C2: the window gate has no midnight-wrap semantics -/

/-- C2 counterexample: for windows `[["22:00","06:00"]]` the code's gate is
closed at 23:30 and at 05:00, while the spec's wrap-around semantics is open
at both; the two functions disagree, refuting the claimed equivalence. -/
theorem c2_counterexample :
    within_send_windows [("22:00", "06:00")] (23 * 60 + 30) = false ∧
    isOpenSpec [("22:00", "06:00")] (23 * 60 + 30) = true ∧
    within_send_windows [("22:00", "06:00")] (5 * 60) = false ∧
    isOpenSpec [("22:00", "06:00")] (5 * 60) = true ∧
    within_send_windows [("22:00", "06:00")] (12 * 60) = false := by
  refine ⟨rfl, rfl, rfl, rfl, rfl⟩

/-- C2 amended: the gate returns true iff some configured window
`(start, end)` satisfies `start <= now <= end`; a window with `start > end`
never matches (there is no wrap-past-midnight interpretation), so for
windows `[["22:00","06:00"]]` the gate is closed at 23:30, at 05:00 and at
12:00. -/
theorem c2_window_gate :
    (∀ (windows : List (String × String)) (now : Nat),
      within_send_windows windows now = true ↔
        ∃ w ∈ windows, ∃ s e, parseHM w.1 = some s ∧ parseHM w.2 = some e ∧
          s ≤ now ∧ now ≤ e) ∧
    within_send_windows [("22:00", "06:00")] (23 * 60 + 30) = false ∧
    within_send_windows [("22:00", "06:00")] (5 * 60) = false ∧
    within_send_windows [("22:00", "06:00")] (12 * 60) = false := by
  refine ⟨?_, rfl, rfl, rfl⟩
  intro windows now
  rw [within_send_windows, List.any_eq_true]
  constructor
  · rintro ⟨w, hw, hm⟩
    refine ⟨w, hw, ?_⟩
    cases hp : parseHM w.1 with
    | none =>
      rw [hp] at hm
      simp at hm
    | some s =>
      cases hq : parseHM w.2 with
      | none =>
        rw [hp, hq] at hm
        simp at hm
      | some e =>
        rw [hp, hq] at hm
        simp only [Bool.and_eq_true, decide_eq_true_eq] at hm
        exact ⟨s, e, rfl, rfl, hm.1, hm.2⟩
  · rintro ⟨w, hw, s, e, hp, hq, h1, h2⟩
    refine ⟨w, hw, ?_⟩
    rw [hp, hq]
    simp [h1, h2]

/-! ### Claim C5: the built queue is disjoint from the dedup ledger -/

/-- Disjointness of the built queue from the sent set: no row of the queue
built by `load_contacts` carries a contact present in the sent log. -/
def queueDisjoint (raw : List RawRow) (sent : List String) (randomize : Bool)
    (reorder : List Row → List Row) : Prop :=
  ∀ r ∈ load_contacts raw (some sent) randomize reorder, r.contato ∉ sent

/-- Sample contact spreadsheet used by the witnesses: one valid fresh
contact, one contact already in the ledger, one missing cell and one
too-short number. -/
def rawSample : List RawRow :=
  [⟨some "11-98765-4321", "Ana"⟩, ⟨some "5511999999999", "Bob"⟩,
   ⟨none, "Carol"⟩, ⟨some "123", "Dan"⟩]

/-- Sample sent-log contact set used by the witnesses. -/
def sentSample : List String := ["5511999999999"]

/-- C5: whenever the sent-log file exists at queue-build time, the queue
built by `load_contacts` contains no recipient whose contact is in the sent
set — for any reordering oracle that only permutes its input. -/
theorem c5_queue_ledger_disjoint :
    ∀ (raw : List RawRow) (sent : List String) (randomize : Bool)
      (reorder : List Row → List Row),
      (∀ l x, x ∈ reorder l → x ∈ l) →
      queueDisjoint raw sent randomize reorder := by
  intro raw sent randomize reorder hre r hr hmem
  rw [load_contacts] at hr
  have hr2 : r ∈ (raw.filterMap fun rr =>
      rr.contato.bind fun c => (normalize_phone c).map fun nc => Row.mk nc rr.nome).filter
        fun row => !(sent.contains row.contato) := by
    cases randomize with
    | false => simpa using hr
    | true => exact hre _ r (by simpa using hr)
  have hfalse := (List.mem_filter.mp hr2).2
  rw [Bool.not_eq_true'] at hfalse
  have htrue : sent.contains r.contato = true := List.elem_eq_true_of_mem hmem
  rw [hfalse] at htrue
  cases htrue

/-- Witness for C5 at the sample spreadsheet and ledger. -/
theorem c5_queue_ledger_disjoint_witness :
    queueDisjoint rawSample sentSample false id :=
  c5_queue_ledger_disjoint rawSample sentSample false id (fun _ _ h => h)

/-! ### Lemmas about `drop_duplicates` (claim C7) -/

theorem contains_cons_eq (seen : List String) (x c : String) :
    (x :: seen).contains c = (c == x || seen.contains c) := rfl

theorem beq_string_false (a b : String) (h : a ≠ b) : (a == b) = false := by
  rcases Bool.eq_false_or_eq_true (a == b) with ht | hf
  · exact absurd (eq_of_beq ht) h
  · exact hf

theorem contains_cons_self (seen : List String) (c : String) :
    (c :: seen).contains c = true := by
  rw [contains_cons_eq, beq_self_eq_true, Bool.true_or]

theorem drop_duplicates_go_count_zero (c : String) :
    ∀ (l : List SentRecord) (seen : List String), seen.contains c = true →
      countContato (drop_duplicates_go seen l) c = 0 := by
  intro l
  induction l with
  | nil => intro seen _; rfl
  | cons r rs ih =>
    intro seen h
    rw [drop_duplicates_go]
    by_cases hs : seen.contains r.contato = true
    · rw [if_pos hs]
      exact ih seen h
    · rw [if_neg hs]
      have hrc : r.contato ≠ c := by
        intro hrc
        rw [hrc] at hs
        exact hs h
      have hbc := beq_string_false r.contato c hrc
      have hseen : (r.contato :: seen).contains c = true := by
        rw [contains_cons_eq, h, Bool.or_true]
      simp [countContato, hbc, ih (r.contato :: seen) hseen]

theorem drop_duplicates_go_count_le_one (c : String) :
    ∀ (l : List SentRecord) (seen : List String),
      countContato (drop_duplicates_go seen l) c ≤ 1 := by
  intro l
  induction l with
  | nil => intro seen; simp [drop_duplicates_go, countContato]
  | cons r rs ih =>
    intro seen
    rw [drop_duplicates_go]
    by_cases hs : seen.contains r.contato = true
    · rw [if_pos hs]; exact ih seen
    · rw [if_neg hs]
      by_cases hrc : r.contato = c
      · have h0 := drop_duplicates_go_count_zero c rs (r.contato :: seen)
          (by rw [hrc]; exact contains_cons_self seen c)
        rw [hrc] at h0
        simp [countContato, hrc, beq_self_eq_true, h0]
      · have hbc := beq_string_false r.contato c hrc
        simp only [countContato, hbc, Bool.false_eq_true, if_false, Nat.zero_add]
        exact ih (r.contato :: seen)

theorem drop_duplicates_go_count_one (c : String) :
    ∀ (l : List SentRecord) (seen : List String), seen.contains c = false →
      (∃ x ∈ l, x.contato = c) →
      countContato (drop_duplicates_go seen l) c = 1 := by
  intro l
  induction l with
  | nil => rintro seen _ ⟨x, hx, _⟩; cases hx
  | cons r rs ih =>
    rintro seen hc ⟨x, hx, hxc⟩
    rw [drop_duplicates_go]
    by_cases hs : seen.contains r.contato = true
    · rw [if_pos hs]
      have hrc : r.contato ≠ c := by
        intro hrc
        rw [hrc, hc] at hs
        cases hs
      rcases List.mem_cons.mp hx with rfl | hx'
      · exact absurd hxc hrc
      · exact ih seen hc ⟨x, hx', hxc⟩
    · rw [if_neg hs]
      by_cases hrc : r.contato = c
      · have h0 := drop_duplicates_go_count_zero c rs (r.contato :: seen)
          (by rw [hrc]; exact contains_cons_self seen c)
        rw [hrc] at h0
        simp [countContato, hrc, beq_self_eq_true, h0]
      · have hbc := beq_string_false r.contato c hrc
        simp only [countContato, hbc, Bool.false_eq_true, if_false, Nat.zero_add]
        rcases List.mem_cons.mp hx with rfl | hx'
        · exact absurd hxc hrc
        · refine ih (r.contato :: seen) ?_ ⟨x, hx', hxc⟩
          rw [contains_cons_eq, hc, Bool.or_false]
          exact beq_string_false c r.contato fun h => hrc h.symm

theorem drop_duplicates_go_find (c : String) :
    ∀ (l : List SentRecord) (seen : List String), seen.contains c = false →
      findContato (drop_duplicates_go seen l) c = findContato l c := by
  intro l
  induction l with
  | nil => intro seen _; rfl
  | cons r rs ih =>
    intro seen hc
    rw [drop_duplicates_go]
    by_cases hs : seen.contains r.contato = true
    · rw [if_pos hs]
      have hrc : r.contato ≠ c := by
        intro hrc
        rw [hrc, hc] at hs
        cases hs
      have hbc := beq_string_false r.contato c hrc
      rw [ih seen hc]
      simp [findContato, hbc]
    · rw [if_neg hs]
      by_cases hrc : r.contato = c
      · simp [findContato, hrc, beq_self_eq_true]
      · have hbc := beq_string_false r.contato c hrc
        simp only [findContato, hbc, Bool.false_eq_true, if_false]
        refine ih (r.contato :: seen) ?_
        rw [contains_cons_eq, hc, Bool.or_false]
        exact beq_string_false c r.contato fun h => hrc h.symm

/-! ### Claim C7: dedup semantics of the ledger append -/

/-- C7 counterexample: appending a batch that contains the same contact twice
when the sent-log file does not yet exist persists both rows (the id is not
"represented exactly once"); and merging a new record into an existing file
keeps the OLD stored row — pandas `drop_duplicates` keeps the first
occurrence — not the last write as claimed. -/
theorem c7_counterexample :
    persist_sent none
        [⟨"Ana", "11987654321", "t1"⟩, ⟨"Ana", "11987654321", "t2"⟩] =
      some [⟨"Ana", "11987654321", "t1"⟩, ⟨"Ana", "11987654321", "t2"⟩] ∧
    countContato [SentRecord.mk "Ana" "11987654321" "t1",
        SentRecord.mk "Ana" "11987654321" "t2"] "11987654321" = 2 ∧
    persist_sent (some [⟨"Ana", "11987654321", "old"⟩])
        [⟨"Ana", "11987654321", "new"⟩] =
      some [⟨"Ana", "11987654321", "old"⟩] := by
  refine ⟨rfl, rfl, rfl⟩

/-- Append contract actually implemented by `persist_sent` when the sent-log
file already exists: the merged table contains every appended contact exactly
once, no contact more than once, and the surviving row for a contact is the
FIRST row of `old ++ new` with that contact (an already-stored row wins over
the batch; within the batch the earliest row wins). -/
def appendContract (old new : List SentRecord) : Prop :=
  ∃ merged, persist_sent (some old) new = some merged ∧
    (∀ c, countContato merged c ≤ 1) ∧
    (∀ r ∈ new, countContato merged r.contato = 1) ∧
    (∀ c, findContato merged c = findContato (old ++ new) c)

/-- C7 amended: merging a non-empty batch into an existing stored set
represents each appended contact exactly once, with the first-written record
for a contact winning (not the last). -/
theorem c7_append_dedup :
    ∀ (old new : List SentRecord), new ≠ [] → appendContract old new := by
  intro old new hne
  have hni : new.isEmpty = false := by
    cases new with
    | nil => exact absurd rfl hne
    | cons a l => rfl
  refine ⟨drop_duplicates (old ++ new), ?_, ?_, ?_, ?_⟩
  · rw [persist_sent, hni]
    rfl
  · intro c
    exact drop_duplicates_go_count_le_one c (old ++ new) []
  · intro r hr
    exact drop_duplicates_go_count_one r.contato (old ++ new) [] rfl
      ⟨r, List.mem_append_right old hr, rfl⟩
  · intro c
    exact drop_duplicates_go_find c (old ++ new) [] rfl

/-- Witness for C7's amended theorem at a concrete ledger and batch. -/
theorem c7_append_dedup_witness :
    appendContract [⟨"Bob", "5511999999999", "t0"⟩]
      [⟨"Ana", "11987654321", "t1"⟩] :=
  c7_append_dedup [⟨"Bob", "5511999999999", "t0"⟩]
    [⟨"Ana", "11987654321", "t1"⟩] (by simp)

/-! ### Lemmas about the window-wait loop -/

theorem pollLoop_ok_of (env : Env) (idx : Nat) (hok : ∀ j, env.ckptOk j = true) :
    ∀ (p : Nat) (st : St), (pollLoop env idx p st).ok = true := by
  intro p
  induction p with
  | zero => intro st; rfl
  | succ q ih =>
    intro st
    rw [pollLoop, if_pos (hok st.wc)]
    exact ih _

theorem pollLoop_mem (env : Env) (idx : Nat) :
    ∀ (p : Nat) (st : St) (e : Event), e ∈ (pollLoop env idx p st).tr →
      e = Event.ckptSave ((idx : Int) - 1) ∨ e = Event.sleepPoll := by
  intro p
  induction p with
  | zero => intro st e he; cases he
  | succ q ih =>
    intro st e he
    rw [pollLoop] at he
    by_cases h : env.ckptOk st.wc = true
    · rw [if_pos h] at he
      rcases List.mem_cons.mp he with rfl | he2
      · exact Or.inl rfl
      rcases List.mem_cons.mp he2 with rfl | he3
      · exact Or.inr rfl
      · exact ih _ e he3
    · rw [if_neg h] at he
      cases he

theorem pollLoop_preserves (env : Env) (idx : Nat) :
    ∀ (p : Nat) (st : St),
      (pollLoop env idx p st).st.hourly = st.hourly ∧
      (pollLoop env idx p st).st.daily = st.daily ∧
      (pollLoop env idx p st).st.batch = st.batch := by
  intro p
  induction p with
  | zero => intro st; exact ⟨rfl, rfl, rfl⟩
  | succ q ih =>
    intro st
    rw [pollLoop]
    by_cases h : env.ckptOk st.wc = true
    · rw [if_pos h]
      exact ih _
    · rw [if_neg h]
      exact ⟨rfl, rfl, rfl⟩

theorem pollLoop_ckpt (env : Env) (idx : Nat) :
    ∀ (p : Nat) (st : St),
      (pollLoop env idx p st).st.ckpt = st.ckpt ∨
      (pollLoop env idx p st).st.ckpt = some ((idx : Int) - 1) := by
  intro p
  induction p with
  | zero => intro st; exact Or.inl rfl
  | succ q ih =>
    intro st
    rw [pollLoop]
    by_cases h : env.ckptOk st.wc = true
    · rw [if_pos h]
      rcases ih { st with ckpt := some ((idx : Int) - 1), wc := st.wc + 1 } with h1 | h1
      · exact Or.inr h1
      · exact Or.inr h1
    · rw [if_neg h]
      exact Or.inl rfl

/-! ### Lemmas about the post-window part of one iteration -/

theorem hourlySt_daily (cfg : Cfg) (st1 : St) : (hourlySt cfg st1).daily = st1.daily := by
  rw [hourlySt]; split <;> rfl

theorem hourlySt_batch (cfg : Cfg) (st1 : St) : (hourlySt cfg st1).batch = st1.batch := by
  rw [hourlySt]; split <;> rfl

theorem hourlySt_ckpt (cfg : Cfg) (st1 : St) : (hourlySt cfg st1).ckpt = st1.ckpt := by
  rw [hourlySt]; split <;> rfl

theorem hourlyTr_mem (cfg : Cfg) (st1 : St) (e : Event) (he : e ∈ hourlyTr cfg st1) :
    e = Event.cooldown 600 ∨ e = Event.hourlyReset := by
  rw [hourlyTr] at he
  rcases Decidable.em (cfg.maxPerHour ≤ st1.hourly) with h | h
  · rw [if_pos h] at he
    rcases List.mem_cons.mp he with rfl | he2
    · exact Or.inl rfl
    rcases List.mem_cons.mp he2 with rfl | he3
    · exact Or.inr rfl
    · cases he3
  · rw [if_neg h] at he
    cases he

theorem hourlyTr_pos (cfg : Cfg) (st1 : St) (hh : cfg.maxPerHour ≤ st1.hourly) :
    hourlyTr cfg st1 = [Event.cooldown 600, Event.hourlyReset] := by
  rw [hourlyTr, if_pos hh]

theorem sendTr_mem (env : Env) (idx : Nat) (e : Event) (he : e ∈ sendTr env idx) :
    (∃ b, e = Event.sendAttempt idx b) ∨ e = Event.counterInc := by
  rw [sendTr] at he
  rcases List.mem_cons.mp he with rfl | he2
  · exact Or.inl ⟨env.sendOk idx, rfl⟩
  rcases Bool.eq_false_or_eq_true (env.sendOk idx) with h | h
  · rw [if_pos h] at he2
    rcases List.mem_cons.mp he2 with rfl | he3
    · exact Or.inr rfl
    · cases he3
  · rw [if_neg (by rw [h]; exact Bool.false_ne_true)] at he2
    cases he2

theorem rateAndSend_daily (env : Env) (cfg : Cfg) (idx : Nat) (b : Bool) (st1 : St)
    (hd : cfg.maxPerDay ≤ st1.daily) :
    rateAndSend env cfg idx b st1 =
      ⟨hourlyTr cfg st1, hourlySt cfg st1, .dailyBreak⟩ := by
  rw [rateAndSend, if_pos (by rw [hourlySt_daily]; exact hd)]

theorem rateAndSend_mem (env : Env) (cfg : Cfg) (idx : Nat) (b : Bool) (st1 : St)
    (e : Event) (he : e ∈ (rateAndSend env cfg idx b st1).tr) :
    e = Event.cooldown 600 ∨ e = Event.hourlyReset ∨
    (∃ ok, e = Event.sendAttempt idx ok) ∨ e = Event.counterInc ∨
    e = Event.ckptSave (idx : Int) ∨ e = Event.pace := by
  rw [rateAndSend] at he
  by_cases hd : cfg.maxPerDay ≤ (hourlySt cfg st1).daily
  · rw [if_pos hd] at he
    rcases hourlyTr_mem cfg st1 e he with h | h
    · exact Or.inl h
    · exact Or.inr (Or.inl h)
  · rw [if_neg hd] at he
    by_cases hk : env.ckptOk (sendSt env idx (hourlySt cfg st1)).wc = true
    · rw [if_pos hk] at he
      rcases List.mem_append.mp he with h1 | h2
      · rcases hourlyTr_mem cfg st1 e h1 with h | h
        · exact Or.inl h
        · exact Or.inr (Or.inl h)
      rcases List.mem_append.mp h2 with h3 | h4
      · rcases sendTr_mem env idx e h3 with h | h
        · exact Or.inr (Or.inr (Or.inl h))
        · exact Or.inr (Or.inr (Or.inr (Or.inl h)))
      rcases List.mem_cons.mp h4 with rfl | h5
      · exact Or.inr (Or.inr (Or.inr (Or.inr (Or.inl rfl))))
      rcases Decidable.em (b = true) with hb | hb
      · rw [if_pos hb] at h5
        rcases List.mem_cons.mp h5 with rfl | h6
        · exact Or.inr (Or.inr (Or.inr (Or.inr (Or.inr rfl))))
        · cases h6
      · rw [if_neg hb] at h5
        cases h5
    · rw [if_neg hk] at he
      rcases List.mem_append.mp he with h1 | h2
      · rcases hourlyTr_mem cfg st1 e h1 with h | h
        · exact Or.inl h
        · exact Or.inr (Or.inl h)
      · rcases sendTr_mem env idx e h2 with h | h
        · exact Or.inr (Or.inr (Or.inl h))
        · exact Or.inr (Or.inr (Or.inr (Or.inl h)))

theorem rateAndSend_ex_ne_fatal (env : Env) (cfg : Cfg) (idx : Nat) (b : Bool)
    (st1 : St) (hok : ∀ j, env.ckptOk j = true) :
    (rateAndSend env cfg idx b st1).ex ≠ .fatal := by
  rw [rateAndSend]
  by_cases hd : cfg.maxPerDay ≤ (hourlySt cfg st1).daily
  · rw [if_pos hd]
    intro h
    cases h
  · rw [if_neg hd, if_pos (hok _)]
    intro h
    cases h

/-! ### Lemmas about one full iteration and the loop -/

/-- Events that only the loop skeleton can emit (loop-body entry, block
pauses of the spec, and the end-of-run flush); everything else is an
in-iteration event. -/
def isForeign (e : Event) : Bool :=
  match e with
  | .blockPause _ => true
  | .flush _ => true
  | .proc _ => true
  | _ => false

theorem step_ok_eq (env : Env) (cfg : Cfg) (idx : Nat) (b : Bool) (st : St)
    (hok : ∀ j, env.ckptOk j = true) :
    step env cfg idx b st =
      ⟨Event.proc idx :: ((pollLoop env idx (env.polls idx) st).tr ++
          (rateAndSend env cfg idx b (pollLoop env idx (env.polls idx) st).st).tr),
        (rateAndSend env cfg idx b (pollLoop env idx (env.polls idx) st).st).st,
        (rateAndSend env cfg idx b (pollLoop env idx (env.polls idx) st).st).ex⟩ := by
  rw [step, if_neg (by rw [pollLoop_ok_of env idx hok]; exact fun h => Bool.noConfusion h)]

theorem step_mem (env : Env) (cfg : Cfg) (idx : Nat) (b : Bool) (st : St)
    (e : Event) (he : e ∈ (step env cfg idx b st).tr) :
    e = Event.proc idx ∨ e = Event.ckptSave ((idx : Int) - 1) ∨
    e = Event.sleepPoll ∨ e = Event.cooldown 600 ∨ e = Event.hourlyReset ∨
    (∃ ok, e = Event.sendAttempt idx ok) ∨ e = Event.counterInc ∨
    e = Event.ckptSave (idx : Int) ∨ e = Event.pace := by
  rw [step] at he
  by_cases hpk : (pollLoop env idx (env.polls idx) st).ok = false
  · rw [if_pos hpk] at he
    rcases List.mem_cons.mp he with rfl | h2
    · exact Or.inl rfl
    rcases pollLoop_mem env idx (env.polls idx) st e h2 with h | h
    · exact Or.inr (Or.inl h)
    · exact Or.inr (Or.inr (Or.inl h))
  · rw [if_neg hpk] at he
    rcases List.mem_cons.mp he with rfl | h2
    · exact Or.inl rfl
    rcases List.mem_append.mp h2 with h3 | h4
    · rcases pollLoop_mem env idx (env.polls idx) st e h3 with h | h
      · exact Or.inr (Or.inl h)
      · exact Or.inr (Or.inr (Or.inl h))
    · rcases rateAndSend_mem env cfg idx b _ e h4 with h | h | h | h | h | h
      · exact Or.inr (Or.inr (Or.inr (Or.inl h)))
      · exact Or.inr (Or.inr (Or.inr (Or.inr (Or.inl h))))
      · exact Or.inr (Or.inr (Or.inr (Or.inr (Or.inr (Or.inl h)))))
      · exact Or.inr (Or.inr (Or.inr (Or.inr (Or.inr (Or.inr (Or.inl h))))))
      · exact Or.inr (Or.inr (Or.inr (Or.inr (Or.inr (Or.inr (Or.inr (Or.inl h)))))))
      · exact Or.inr (Or.inr (Or.inr (Or.inr (Or.inr (Or.inr (Or.inr (Or.inr h)))))))

theorem step_foreign (env : Env) (cfg : Cfg) (idx : Nat) (b : Bool) (st : St)
    (e : Event) (he : e ∈ (step env cfg idx b st).tr) (hf : isForeign e = true) :
    e = Event.proc idx := by
  rcases step_mem env cfg idx b st e he with h | h | h | h | h | h | h | h | h
  · exact h
  all_goals first
    | (subst h; cases hf)
    | (obtain ⟨ok, rfl⟩ := h; cases hf)

theorem runLoopAux_nil (env : Env) (cfg : Cfg) (n : Nat) (k : Int) (st : St) :
    runLoopAux env cfg n k [] st = ⟨[], st, .exhausted⟩ := rfl

theorem runLoopAux_skip (env : Env) (cfg : Cfg) (n : Nat) (k : Int) (idx : Nat)
    (rest : List Nat) (st : St) (h : (idx : Int) ≤ k) :
    runLoopAux env cfg n k (idx :: rest) st = runLoopAux env cfg n k rest st := by
  rw [runLoopAux, if_pos h]

theorem runLoopAux_cons_cont (env : Env) (cfg : Cfg) (n : Nat) (k : Int) (idx : Nat)
    (rest : List Nat) (st : St) (h : ¬ (idx : Int) ≤ k)
    (hex : (step env cfg idx (decide (idx + 1 < n)) st).ex = .cont) :
    runLoopAux env cfg n k (idx :: rest) st =
      ⟨(step env cfg idx (decide (idx + 1 < n)) st).tr ++
          (runLoopAux env cfg n k rest
            (step env cfg idx (decide (idx + 1 < n)) st).st).trace,
        (runLoopAux env cfg n k rest
          (step env cfg idx (decide (idx + 1 < n)) st).st).st,
        (runLoopAux env cfg n k rest
          (step env cfg idx (decide (idx + 1 < n)) st).st).exit⟩ := by
  rw [runLoopAux, if_neg h, hex]

theorem runLoopAux_cons_daily (env : Env) (cfg : Cfg) (n : Nat) (k : Int) (idx : Nat)
    (rest : List Nat) (st : St) (h : ¬ (idx : Int) ≤ k)
    (hex : (step env cfg idx (decide (idx + 1 < n)) st).ex = .dailyBreak) :
    runLoopAux env cfg n k (idx :: rest) st =
      ⟨(step env cfg idx (decide (idx + 1 < n)) st).tr,
        (step env cfg idx (decide (idx + 1 < n)) st).st, .dailyCap⟩ := by
  rw [runLoopAux, if_neg h, hex]

theorem runLoopAux_cons_fatal (env : Env) (cfg : Cfg) (n : Nat) (k : Int) (idx : Nat)
    (rest : List Nat) (st : St) (h : ¬ (idx : Int) ≤ k)
    (hex : (step env cfg idx (decide (idx + 1 < n)) st).ex = .fatal) :
    runLoopAux env cfg n k (idx :: rest) st =
      ⟨(step env cfg idx (decide (idx + 1 < n)) st).tr,
        (step env cfg idx (decide (idx + 1 < n)) st).st, .fatal⟩ := by
  rw [runLoopAux, if_neg h, hex]

theorem runLoopAux_foreign (env : Env) (cfg : Cfg) (n : Nat) (k : Int) :
    ∀ (l : List Nat) (st : St) (e : Event),
      e ∈ (runLoopAux env cfg n k l st).trace → isForeign e = true →
      ∃ idx, idx ∈ l ∧ k < (idx : Int) ∧ e = Event.proc idx := by
  intro l
  induction l with
  | nil => intro st e he _; cases he
  | cons idx rest ih =>
    intro st e he hf
    by_cases hsk : (idx : Int) ≤ k
    · rw [runLoopAux_skip env cfg n k idx rest st hsk] at he
      obtain ⟨i, hi, hki, hei⟩ := ih st e he hf
      exact ⟨i, List.mem_cons_of_mem idx hi, hki, hei⟩
    · cases hex : (step env cfg idx (decide (idx + 1 < n)) st).ex with
      | cont =>
        rw [runLoopAux_cons_cont env cfg n k idx rest st hsk hex] at he
        rcases List.mem_append.mp he with h1 | h2
        · exact ⟨idx, List.mem_cons_self idx rest, by omega,
            step_foreign env cfg idx _ st e h1 hf⟩
        · obtain ⟨i, hi, hki, hei⟩ := ih _ e h2 hf
          exact ⟨i, List.mem_cons_of_mem idx hi, hki, hei⟩
      | dailyBreak =>
        rw [runLoopAux_cons_daily env cfg n k idx rest st hsk hex] at he
        exact ⟨idx, List.mem_cons_self idx rest, by omega,
          step_foreign env cfg idx _ st e he hf⟩
      | fatal =>
        rw [runLoopAux_cons_fatal env cfg n k idx rest st hsk hex] at he
        exact ⟨idx, List.mem_cons_self idx rest, by omega,
          step_foreign env cfg idx _ st e he hf⟩

theorem runLoopAux_no_block (env : Env) (cfg : Cfg) (n : Nat) (k : Int)
    (l : List Nat) (st : St) (s : Nat) :
    Event.blockPause s ∉ (runLoopAux env cfg n k l st).trace := by
  intro he
  obtain ⟨i, _, _, hei⟩ := runLoopAux_foreign env cfg n k l st _ he rfl
  cases hei

theorem runLoopAux_no_flush (env : Env) (cfg : Cfg) (n : Nat) (k : Int)
    (l : List Nat) (st : St) (m : Nat) :
    Event.flush m ∉ (runLoopAux env cfg n k l st).trace := by
  intro he
  obtain ⟨i, _, _, hei⟩ := runLoopAux_foreign env cfg n k l st _ he rfl
  cases hei

theorem runLoopAux_proc (env : Env) (cfg : Cfg) (n : Nat) (k : Int)
    (l : List Nat) (st : St) (i : Nat)
    (he : Event.proc i ∈ (runLoopAux env cfg n k l st).trace) :
    i ∈ l ∧ k < (i : Int) := by
  obtain ⟨j, hj, hkj, hej⟩ := runLoopAux_foreign env cfg n k l st _ he rfl
  cases hej
  exact ⟨hj, hkj⟩

theorem runSender_mem (env : Env) (cfg : Cfg) (n : Nat) (k : Int) (e : Event)
    (he : e ∈ (runSender env cfg n k).trace) :
    e ∈ (runLoopAux env cfg n k (List.range n) initSt).trace ∨
    ∃ m, e = Event.flush m := by
  rw [runSender] at he
  split at he
  · exact Or.inl he
  · split at he
    · exact Or.inl he
    · rcases List.mem_append.mp he with h | h
      · exact Or.inl h
      · rcases List.mem_cons.mp h with rfl | h2
        · exact Or.inr ⟨_, rfl⟩
        · cases h2

theorem runSender_exit (env : Env) (cfg : Cfg) (n : Nat) (k : Int) :
    (runSender env cfg n k).exit =
      (runLoopAux env cfg n k (List.range n) initSt).exit := by
  rw [runSender]
  split
  · rfl
  · split
    · rfl
    · rfl

theorem runSender_st (env : Env) (cfg : Cfg) (n : Nat) (k : Int) :
    (runSender env cfg n k).st =
      (runLoopAux env cfg n k (List.range n) initSt).st := by
  rw [runSender]
  split
  · rfl
  · split
    · rfl
    · rfl

/-! ### Claim C1: there is no block pause in the dispatch loop -/

/-- C1 counterexample: in the spec's end-to-end scenario — a queue of 16
recipients, all sends succeeding, window always open, all writes fine — the
run performs zero long block pauses, not the one pause the claim requires
between recipients 15 and 16. -/
theorem c1_counterexample :
    countBlockPause (runSender envAll cfgDefault 16 (-1)).trace = 0 ∧
    countBlockPause (runSender envAll cfgDefault 16 (-1)).trace ≠ 1 := by
  exact ⟨by decide, by decide⟩

/-- C1 amended: `SafeSender.run` contains no block-pause mechanism at all —
no `block_size` or `block_pause_seconds` is consulted anywhere — so every
run, over any queue, any configuration and any environment, performs exactly
zero long block pauses. -/
theorem c1_no_block_pause :
    ∀ (env : Env) (cfg : Cfg) (n : Nat) (k : Int),
      countBlockPause (runSender env cfg n k).trace = 0 := by
  intro env cfg n k
  rw [countBlockPause, List.length_eq_zero, List.filter_eq_nil_iff]
  intro a ha hpred
  rcases runSender_mem env cfg n k a ha with h | ⟨m, rfl⟩
  · cases a with
    | blockPause s => exact runLoopAux_no_block env cfg n k (List.range n) initSt s h
    | proc i => cases hpred
    | ckptSave v => cases hpred
    | sleepPoll => cases hpred
    | cooldown s => cases hpred
    | hourlyReset => cases hpred
    | sendAttempt i b => cases hpred
    | counterInc => cases hpred
    | pace => cases hpred
    | flush m => cases hpred
  · cases hpred

/-! ### Claim C4: when the batch is flushed -/

theorem countFlush_append (a b : List Event) :
    countFlush (a ++ b) = countFlush a + countFlush b := by
  rw [countFlush, countFlush, countFlush, List.filter_append, List.length_append]

theorem countFlush_loop (env : Env) (cfg : Cfg) (n : Nat) (k : Int)
    (l : List Nat) (st : St) :
    countFlush (runLoopAux env cfg n k l st).trace = 0 := by
  rw [countFlush, List.length_eq_zero, List.filter_eq_nil_iff]
  intro a ha hpred
  cases a with
  | flush m => exact runLoopAux_no_flush env cfg n k l st m ha
  | proc i => cases hpred
  | ckptSave v => cases hpred
  | sleepPoll => cases hpred
  | cooldown s => cases hpred
  | hourlyReset => cases hpred
  | sendAttempt i b => cases hpred
  | counterInc => cases hpred
  | pace => cases hpred
  | blockPause s => cases hpred

/-- C4 counterexample: a run in which the (only) per-recipient checkpoint
write raises an I/O error aborts with a non-empty in-memory batch and flushes
it zero times — not "exactly once" as the claim requires for runs aborted by
a fatal error. -/
theorem c4_counterexample :
    (runSender envCkptFail cfgDefault 1 (-1)).exit = .fatal ∧
    (runSender envCkptFail cfgDefault 1 (-1)).st.batch = [0] ∧
    countFlush (runSender envCkptFail cfgDefault 1 (-1)).trace = 0 := by
  exact ⟨by decide, by decide, by decide⟩

/-- C4 amended: the batch is flushed exactly once when the run ends by queue
exhaustion or by the daily cap with a non-empty batch; it is flushed zero
times when the run is aborted by a persistence error (the exception skips
the flush) and zero times when the batch is empty (`persist_sent` is not
even called). -/
theorem runSender_fatal_eq (env : Env) (cfg : Cfg) (n : Nat) (k : Int)
    (hex : (runLoopAux env cfg n k (List.range n) initSt).exit = .fatal) :
    runSender env cfg n k = runLoopAux env cfg n k (List.range n) initSt := by
  rw [runSender, hex]

theorem runSender_noflush_eq (env : Env) (cfg : Cfg) (n : Nat) (k : Int)
    (hex : (runLoopAux env cfg n k (List.range n) initSt).exit ≠ .fatal)
    (hb : (runLoopAux env cfg n k (List.range n) initSt).st.batch = []) :
    runSender env cfg n k = runLoopAux env cfg n k (List.range n) initSt := by
  rw [runSender]
  have hbe : (runLoopAux env cfg n k (List.range n) initSt).st.batch.isEmpty = true :=
    by rw [hb]; rfl
  cases hx : (runLoopAux env cfg n k (List.range n) initSt).exit with
  | fatal => exact absurd hx hex
  | exhausted => simp [hbe]
  | dailyCap => simp [hbe]

theorem runSender_flush_eq (env : Env) (cfg : Cfg) (n : Nat) (k : Int)
    (hex : (runLoopAux env cfg n k (List.range n) initSt).exit ≠ .fatal)
    (hb : (runLoopAux env cfg n k (List.range n) initSt).st.batch ≠ []) :
    runSender env cfg n k =
      ⟨(runLoopAux env cfg n k (List.range n) initSt).trace ++
          [Event.flush (runLoopAux env cfg n k
            (List.range n) initSt).st.batch.length],
        (runLoopAux env cfg n k (List.range n) initSt).st,
        (runLoopAux env cfg n k (List.range n) initSt).exit⟩ := by
  rw [runSender]
  have hbe : ¬ (runLoopAux env cfg n k (List.range n) initSt).st.batch.isEmpty = true :=
    fun h => hb (List.isEmpty_iff.mp h)
  cases hx : (runLoopAux env cfg n k (List.range n) initSt).exit with
  | fatal => exact absurd hx hex
  | exhausted => simp [hbe]
  | dailyCap => simp [hbe]

theorem c4_flush_once :
    ∀ (env : Env) (cfg : Cfg) (n : Nat) (k : Int),
      (runSender env cfg n k).exit =
        (runLoopAux env cfg n k (List.range n) initSt).exit ∧
      (runSender env cfg n k).st =
        (runLoopAux env cfg n k (List.range n) initSt).st ∧
      countFlush (runSender env cfg n k).trace =
        (if (runSender env cfg n k).exit ≠ Exit.fatal ∧
            (runSender env cfg n k).st.batch ≠ [] then 1 else 0) := by
  intro env cfg n k
  refine ⟨runSender_exit env cfg n k, runSender_st env cfg n k, ?_⟩
  rw [runSender_exit env cfg n k, runSender_st env cfg n k]
  by_cases hex : (runLoopAux env cfg n k (List.range n) initSt).exit = .fatal
  · rw [runSender_fatal_eq env cfg n k hex, hex]
    simp only [ne_eq, not_true_eq_false, false_and, if_false]
    exact countFlush_loop env cfg n k (List.range n) initSt
  · by_cases hb : (runLoopAux env cfg n k (List.range n) initSt).st.batch = []
    · rw [runSender_noflush_eq env cfg n k hex hb]
      simp only [hb, ne_eq, not_true_eq_false, and_false, if_false]
      exact countFlush_loop env cfg n k (List.range n) initSt
    · rw [runSender_flush_eq env cfg n k hex hb]
      rw [if_pos ⟨hex, hb⟩]
      show countFlush (_ ++ [Event.flush _]) = 1
      rw [countFlush_append, countFlush_loop]
      rfl

/-! ### Claim C6: checkpoint load default and resume skipping -/

theorem runLoopAux_skip_prefix (env : Env) (cfg : Cfg) (n : Nat) (k : Int) :
    ∀ (l1 l2 : List Nat) (st : St), (∀ i ∈ l1, (i : Int) ≤ k) →
      runLoopAux env cfg n k (l1 ++ l2) st = runLoopAux env cfg n k l2 st := by
  intro l1
  induction l1 with
  | nil => intro l2 st _; rfl
  | cons a l ih =>
    intro l2 st h
    rw [List.cons_append,
      runLoopAux_skip env cfg n k a (l ++ l2) st (h a (List.mem_cons_self a l))]
    exact ih l2 st fun i hi => h i (List.mem_cons_of_mem a hi)

theorem step_tr_head (env : Env) (cfg : Cfg) (idx : Nat) (b : Bool) (st : St) :
    ∃ t, (step env cfg idx b st).tr = Event.proc idx :: t := by
  rw [step]
  by_cases hpk : (pollLoop env idx (env.polls idx) st).ok = false
  · rw [if_pos hpk]
    exact ⟨_, rfl⟩
  · rw [if_neg hpk]
    exact ⟨_, rfl⟩

theorem runLoopAux_head_proc (env : Env) (cfg : Cfg) (n : Nat) (k : Int)
    (idx : Nat) (rest : List Nat) (st : St) (h : ¬ (idx : Int) ≤ k) :
    ∃ t, (runLoopAux env cfg n k (idx :: rest) st).trace = Event.proc idx :: t := by
  obtain ⟨t0, ht0⟩ := step_tr_head env cfg idx (decide (idx + 1 < n)) st
  cases hex : (step env cfg idx (decide (idx + 1 < n)) st).ex with
  | cont =>
    rw [runLoopAux_cons_cont env cfg n k idx rest st h hex]
    refine ⟨t0 ++ (runLoopAux env cfg n k rest
      (step env cfg idx (decide (idx + 1 < n)) st).st).trace, ?_⟩
    rw [ht0, List.cons_append]
  | dailyBreak =>
    rw [runLoopAux_cons_daily env cfg n k idx rest st h hex]
    exact ⟨t0, ht0⟩
  | fatal =>
    rw [runLoopAux_cons_fatal env cfg n k idx rest st h hex]
    exact ⟨t0, ht0⟩

theorem firstProc_cons_proc (j : Nat) (t : List Event) :
    firstProc (Event.proc j :: t) = some j := rfl

theorem runSender_first (env : Env) (cfg : Cfg) (n : Nat) (k : Int) (j : Nat)
    (h : ∃ t, (runLoopAux env cfg n k (List.range n) initSt).trace =
      Event.proc j :: t) :
    firstProc (runSender env cfg n k).trace = some j := by
  obtain ⟨t, ht⟩ := h
  by_cases hex : (runLoopAux env cfg n k (List.range n) initSt).exit = .fatal
  · rw [runSender_fatal_eq env cfg n k hex, ht]
    exact firstProc_cons_proc j t
  · by_cases hb : (runLoopAux env cfg n k (List.range n) initSt).st.batch = []
    · rw [runSender_noflush_eq env cfg n k hex hb, ht]
      exact firstProc_cons_proc j t
    · rw [runSender_flush_eq env cfg n k hex hb]
      show firstProc ((runLoopAux env cfg n k (List.range n) initSt).trace ++
        [Event.flush (runLoopAux env cfg n k
          (List.range n) initSt).st.batch.length]) = some j
      rw [ht, List.cons_append]
      exact firstProc_cons_proc j _

/-- Resume behaviour of a fresh run with checkpoint value `k`: every queue
position at most `k` is skipped without its loop body ever being entered,
and — whenever position `k + 1` exists — the first loop body entered is
exactly the one for position `k + 1`. -/
def resumeContract (env : Env) (cfg : Cfg) (n : Nat) (k : Int) : Prop :=
  (∀ i : Nat, (i : Int) ≤ k → Event.proc i ∉ (runSender env cfg n k).trace) ∧
  ((k + 1).toNat < n → firstProc (runSender env cfg n k).trace = some (k + 1).toNat)

/-- C6: `load_checkpoint` on a missing file yields the empty dictionary,
whose `last_index` lookup defaults to -1; and a fresh run over a queue of `n`
recipients with checkpoint value `k >= -1` skips exactly positions `0..k`
(no `proc` event for them) and begins processing at position `k + 1`. -/
theorem c6_resume_correctness :
    effective_last_index none = -1 ∧
    (∀ (env : Env) (cfg : Cfg) (n : Nat) (k : Int), -1 ≤ k →
      resumeContract env cfg n k) := by
  refine ⟨rfl, ?_⟩
  intro env cfg n k hk
  constructor
  · intro i hik he
    rcases runSender_mem env cfg n k _ he with h | ⟨m, hm⟩
    · have h2 := (runLoopAux_proc env cfg n k _ _ i h).2
      omega
    · cases hm
  · intro hj
    have hjk : (((k + 1).toNat : Nat) : Int) = k + 1 := Int.toNat_of_nonneg (by omega)
    have happ := List.range'_append_1 0 (k + 1).toNat (n - (k + 1).toNat)
    rw [show 0 + (k + 1).toNat = (k + 1).toNat from by omega,
      show n - (k + 1).toNat + (k + 1).toNat = n from by omega] at happ
    have hdec : List.range n =
        List.range' 0 (k + 1).toNat ++ List.range' (k + 1).toNat (n - (k + 1).toNat) := by
      rw [List.range_eq_range', ← happ]
    obtain ⟨m, hm⟩ : ∃ m, n - (k + 1).toNat = m + 1 := ⟨n - (k + 1).toNat - 1, by omega⟩
    have hskip : runLoopAux env cfg n k (List.range n) initSt =
        runLoopAux env cfg n k
          (List.range' (k + 1).toNat (n - (k + 1).toNat)) initSt := by
      rw [hdec]
      refine runLoopAux_skip_prefix env cfg n k (List.range' 0 (k + 1).toNat) _ initSt
        (fun i hi => ?_)
      have h2 := (List.mem_range'_1.mp hi).2
      omega
    rw [hm, List.range'_succ] at hskip
    obtain ⟨t, ht⟩ := runLoopAux_head_proc env cfg n k (k + 1).toNat
      (List.range' ((k + 1).toNat + 1) m) initSt (by omega)
    exact runSender_first env cfg n k (k + 1).toNat ⟨t, by rw [hskip]; exact ht⟩

/-- Witness for C6 at a concrete environment, queue and checkpoint. -/
theorem c6_resume_correctness_witness : resumeContract envAll cfgDefault 3 0 :=
  c6_resume_correctness.2 envAll cfgDefault 3 0 (by decide)

/-! ### Claims C8 and C10: rate caps -/

theorem rateAndSend_hourly_shape (env : Env) (cfg : Cfg) (idx : Nat) (b : Bool)
    (st1 : St) (hh : cfg.maxPerHour ≤ st1.hourly) :
    ∃ t', (rateAndSend env cfg idx b st1).tr =
      Event.cooldown 600 :: Event.hourlyReset :: t' := by
  rw [rateAndSend]
  by_cases hd : cfg.maxPerDay ≤ (hourlySt cfg st1).daily
  · rw [if_pos hd]
    refine ⟨[], ?_⟩
    show hourlyTr cfg st1 = _
    rw [hourlyTr_pos cfg st1 hh]
  · rw [if_neg hd]
    by_cases hk : env.ckptOk (sendSt env idx (hourlySt cfg st1)).wc = true
    · rw [if_pos hk]
      refine ⟨sendTr env idx ++ (Event.ckptSave (idx : Int) ::
        (if b then [Event.pace] else [])), ?_⟩
      show hourlyTr cfg st1 ++ _ = _
      rw [hourlyTr_pos cfg st1 hh]
      simp
    · rw [if_neg hk]
      refine ⟨sendTr env idx, ?_⟩
      show hourlyTr cfg st1 ++ _ = _
      rw [hourlyTr_pos cfg st1 hh]
      simp

theorem pollLoop_no_send (env : Env) (idx : Nat) (p : Nat) (st : St) :
    ∀ i b, Event.sendAttempt i b ∉ (pollLoop env idx p st).tr := by
  intro i b hmem
  rcases pollLoop_mem env idx p st _ hmem with h | h
  · exact Event.noConfusion h
  · exact Event.noConfusion h

/-- Behaviour of the loop from a state whose hourly counter has reached the
hourly cap: the trace of the remaining run consists of the loop-body entry,
a window-wait segment `tw` containing no send attempt, then the 600 s
cooldown immediately followed by the hourly-counter reset, and only then the
rest — so the cooldown-and-reset comes before any further send attempt. -/
def hourlyGateContract (env : Env) (cfg : Cfg) (n : Nat) (k : Int) (idx : Nat)
    (rest : List Nat) (st : St) : Prop :=
  cfg.maxPerHour ≤ st.hourly →
  ∃ tw t', (runLoopAux env cfg n k (idx :: rest) st).trace =
      Event.proc idx :: (tw ++ (Event.cooldown 600 :: Event.hourlyReset :: t')) ∧
    ∀ i b, Event.sendAttempt i b ∉ tw

/-- Behaviour of the loop from a state whose daily counter has reached the
daily cap: the run ends with the daily-cap outcome and performs no further
send attempt. -/
def dailyGateContract (env : Env) (cfg : Cfg) (n : Nat) (k : Int) (idx : Nat)
    (rest : List Nat) (st : St) : Prop :=
  cfg.maxPerDay ≤ st.daily →
  (runLoopAux env cfg n k (idx :: rest) st).exit = .dailyCap ∧
  ∀ i b, Event.sendAttempt i b ∉ (runLoopAux env cfg n k (idx :: rest) st).trace

/-- C8: when the hourly counter has reached `max_messages_per_hour`, the loop
performs the fixed 600 s cooldown and zeroes the hourly counter before any
further send attempt; when the daily counter has reached
`max_messages_per_day`, the run terminates with the daily-cap outcome and no
further send attempt.  Stated from any reachable loop state, for any
environment whose checkpoint writes succeed, at any non-skipped queue
position. -/
theorem c8_rate_caps :
    ∀ (env : Env) (cfg : Cfg) (n : Nat) (k : Int) (idx : Nat) (rest : List Nat)
      (st : St), (∀ j, env.ckptOk j = true) → k < (idx : Int) →
      hourlyGateContract env cfg n k idx rest st ∧
      dailyGateContract env cfg n k idx rest st := by
  intro env cfg n k idx rest st hok hsk
  have hstep := step_ok_eq env cfg idx (decide (idx + 1 < n)) st hok
  have hpres := pollLoop_preserves env idx (env.polls idx) st
  constructor
  · intro hh
    obtain ⟨t', ht'⟩ := rateAndSend_hourly_shape env cfg idx (decide (idx + 1 < n))
      (pollLoop env idx (env.polls idx) st).st (by rw [hpres.1]; exact hh)
    cases hex : (step env cfg idx (decide (idx + 1 < n)) st).ex with
    | cont =>
      rw [runLoopAux_cons_cont env cfg n k idx rest st (by omega) hex]
      refine ⟨(pollLoop env idx (env.polls idx) st).tr,
        t' ++ (runLoopAux env cfg n k rest
          (step env cfg idx (decide (idx + 1 < n)) st).st).trace, ?_,
        fun i b => pollLoop_no_send env idx (env.polls idx) st i b⟩
      rw [hstep]
      show (Event.proc idx :: ((pollLoop env idx (env.polls idx) st).tr ++
        (rateAndSend env cfg idx (decide (idx + 1 < n))
          (pollLoop env idx (env.polls idx) st).st).tr)) ++ _ = _
      rw [ht']
      simp [List.cons_append, List.append_assoc]
    | dailyBreak =>
      rw [runLoopAux_cons_daily env cfg n k idx rest st (by omega) hex]
      refine ⟨(pollLoop env idx (env.polls idx) st).tr, t', ?_,
        fun i b => pollLoop_no_send env idx (env.polls idx) st i b⟩
      show (step env cfg idx (decide (idx + 1 < n)) st).tr = _
      rw [hstep]
      show Event.proc idx :: ((pollLoop env idx (env.polls idx) st).tr ++
        (rateAndSend env cfg idx (decide (idx + 1 < n))
          (pollLoop env idx (env.polls idx) st).st).tr) = _
      rw [ht']
    | fatal =>
      exfalso
      have hrs : (step env cfg idx (decide (idx + 1 < n)) st).ex =
          (rateAndSend env cfg idx (decide (idx + 1 < n))
            (pollLoop env idx (env.polls idx) st).st).ex := by
        rw [hstep]
      exact rateAndSend_ex_ne_fatal env cfg idx (decide (idx + 1 < n))
        (pollLoop env idx (env.polls idx) st).st hok (by rw [← hrs]; exact hex)
  · intro hd
    have hrs := rateAndSend_daily env cfg idx (decide (idx + 1 < n))
      (pollLoop env idx (env.polls idx) st).st (by rw [hpres.2.1]; exact hd)
    have hex : (step env cfg idx (decide (idx + 1 < n)) st).ex = .dailyBreak := by
      rw [hstep]
      show (rateAndSend env cfg idx (decide (idx + 1 < n))
        (pollLoop env idx (env.polls idx) st).st).ex = _
      rw [hrs]
    rw [runLoopAux_cons_daily env cfg n k idx rest st (by omega) hex]
    refine ⟨rfl, ?_⟩
    intro i b hmem
    have hmem2 : Event.sendAttempt i b ∈
        Event.proc idx :: ((pollLoop env idx (env.polls idx) st).tr ++
          (rateAndSend env cfg idx (decide (idx + 1 < n))
            (pollLoop env idx (env.polls idx) st).st).tr) := by
      have h0 : (step env cfg idx (decide (idx + 1 < n)) st).tr =
          Event.proc idx :: ((pollLoop env idx (env.polls idx) st).tr ++
            (rateAndSend env cfg idx (decide (idx + 1 < n))
              (pollLoop env idx (env.polls idx) st).st).tr) := by
        rw [hstep]
      rw [← h0]
      exact hmem
    rcases List.mem_cons.mp hmem2 with h1 | h2
    · exact Event.noConfusion h1
    rcases List.mem_append.mp h2 with h3 | h4
    · exact pollLoop_no_send env idx (env.polls idx) st i b h3
    · rw [hrs] at h4
      rcases hourlyTr_mem cfg (pollLoop env idx (env.polls idx) st).st _ h4 with h | h
      · exact Event.noConfusion h
      · exact Event.noConfusion h

/-- Witness for C8 from a reachable capped state. -/
theorem c8_rate_caps_witness :
    hourlyGateContract envAll cfgTiny 2 (-1) 1 [] ⟨1, 1, [0], some 0, 1⟩ ∧
    dailyGateContract envAll cfgTiny 2 (-1) 1 [] ⟨1, 1, [0], some 0, 1⟩ :=
  c8_rate_caps envAll cfgTiny 2 (-1) 1 [] ⟨1, 1, [0], some 0, 1⟩
    (fun _ => rfl) (by decide)

/-- C10 counterexample: with `max_messages_per_hour = 1` and
`max_messages_per_day = 1`, a queue of two recipients and a successful first
send, the daily-cap termination at queue position 1 is NOT
counter-preserving: the terminating iteration first runs the hourly cooldown
path, which zeroes the hourly counter (it was 1 when the iteration for
position 1 began, as the full-run trace shows, and 0 afterwards), so "the
counters are unchanged" fails.  The remaining assertions of the claim do
hold here: no send attempt, no batch entry and no checkpoint write happen
for position 1. -/
theorem c10_counterexample :
    runSender envAll cfgTiny 2 (-1) =
      ⟨[Event.proc 0, Event.sendAttempt 0 true, Event.counterInc, Event.ckptSave 0,
        Event.pace, Event.proc 1, Event.cooldown 600, Event.hourlyReset,
        Event.flush 1],
       ⟨0, 1, [0], some 0, 1⟩, .dailyCap⟩ ∧
    (runLoopAux envAll cfgTiny 2 (-1) [1] ⟨1, 1, [0], some 0, 1⟩).exit =
      .dailyCap ∧
    (runLoopAux envAll cfgTiny 2 (-1) [1] ⟨1, 1, [0], some 0, 1⟩).st.hourly = 0 ∧
    (runLoopAux envAll cfgTiny 2 (-1) [1] ⟨1, 1, [0], some 0, 1⟩).st.hourly ≠
      (St.mk 1 1 [0] (some 0) 1).hourly := by
  exact ⟨by decide, by decide, by decide, by decide⟩

/-- Behaviour of a daily-cap termination at queue position `idx`: the run
ends with the daily-cap outcome before anything is done for the recipient at
`idx` — no send attempt, no `update_counters` increment, no checkpoint write
with value `idx` (window-wait writes carry `idx - 1`), the batch and the
daily counter are unchanged, and the last written checkpoint is still the
one from before the iteration or the `idx - 1` one written while waiting for
the window. -/
def dailyStopContract (env : Env) (cfg : Cfg) (n : Nat) (k : Int) (idx : Nat)
    (rest : List Nat) (st : St) : Prop :=
  (runLoopAux env cfg n k (idx :: rest) st).exit = .dailyCap ∧
  (∀ i b, Event.sendAttempt i b ∉ (runLoopAux env cfg n k (idx :: rest) st).trace) ∧
  Event.counterInc ∉ (runLoopAux env cfg n k (idx :: rest) st).trace ∧
  Event.ckptSave (idx : Int) ∉ (runLoopAux env cfg n k (idx :: rest) st).trace ∧
  (runLoopAux env cfg n k (idx :: rest) st).st.batch = st.batch ∧
  (runLoopAux env cfg n k (idx :: rest) st).st.daily = st.daily ∧
  ((runLoopAux env cfg n k (idx :: rest) st).st.ckpt = st.ckpt ∨
    (runLoopAux env cfg n k (idx :: rest) st).st.ckpt = some ((idx : Int) - 1))

/-- C10 amended: when the daily-cap check terminates the run at queue
position `idx`, the termination happens before any send attempt, any
success-counter increment, any batch append and any checkpoint write for
`idx`, the daily counter is unchanged and the checkpoint still holds a value
at most `idx - 1` — but the hourly counter is NOT necessarily unchanged: the
hourly cooldown path in the same iteration may zero it first (see the
counterexample). -/
theorem c10_daily_stop :
    ∀ (env : Env) (cfg : Cfg) (n : Nat) (k : Int) (idx : Nat) (rest : List Nat)
      (st : St), (∀ j, env.ckptOk j = true) → k < (idx : Int) →
      cfg.maxPerDay ≤ st.daily →
      dailyStopContract env cfg n k idx rest st := by
  intro env cfg n k idx rest st hok hsk hd
  have hstep := step_ok_eq env cfg idx (decide (idx + 1 < n)) st hok
  have hpres := pollLoop_preserves env idx (env.polls idx) st
  have hrs := rateAndSend_daily env cfg idx (decide (idx + 1 < n))
    (pollLoop env idx (env.polls idx) st).st (by rw [hpres.2.1]; exact hd)
  have hex : (step env cfg idx (decide (idx + 1 < n)) st).ex = .dailyBreak := by
    rw [hstep]
    show (rateAndSend env cfg idx (decide (idx + 1 < n))
      (pollLoop env idx (env.polls idx) st).st).ex = _
    rw [hrs]
  have htr : (step env cfg idx (decide (idx + 1 < n)) st).tr =
      Event.proc idx :: ((pollLoop env idx (env.polls idx) st).tr ++
        hourlyTr cfg (pollLoop env idx (env.polls idx) st).st) := by
    rw [hstep]
    show Event.proc idx :: ((pollLoop env idx (env.polls idx) st).tr ++
      (rateAndSend env cfg idx (decide (idx + 1 < n))
        (pollLoop env idx (env.polls idx) st).st).tr) = _
    rw [hrs]
  have hst : (step env cfg idx (decide (idx + 1 < n)) st).st =
      hourlySt cfg (pollLoop env idx (env.polls idx) st).st := by
    rw [hstep]
    show (rateAndSend env cfg idx (decide (idx + 1 < n))
      (pollLoop env idx (env.polls idx) st).st).st = _
    rw [hrs]
  rw [dailyStopContract, runLoopAux_cons_daily env cfg n k idx rest st (by omega) hex]
  have hmem : ∀ (e : Event), e ∈ (step env cfg idx (decide (idx + 1 < n)) st).tr →
      e = Event.proc idx ∨ e = Event.ckptSave ((idx : Int) - 1) ∨
      e = Event.sleepPoll ∨ e = Event.cooldown 600 ∨ e = Event.hourlyReset := by
    intro e he
    rw [htr] at he
    rcases List.mem_cons.mp he with rfl | h2
    · exact Or.inl rfl
    rcases List.mem_append.mp h2 with h3 | h4
    · rcases pollLoop_mem env idx (env.polls idx) st _ h3 with h | h
      · exact Or.inr (Or.inl h)
      · exact Or.inr (Or.inr (Or.inl h))
    · rcases hourlyTr_mem cfg (pollLoop env idx (env.polls idx) st).st _ h4 with h | h
      · exact Or.inr (Or.inr (Or.inr (Or.inl h)))
      · exact Or.inr (Or.inr (Or.inr (Or.inr h)))
  refine ⟨rfl, ?_, ?_, ?_, ?_, ?_, ?_⟩
  · intro i b hmem2
    rcases hmem _ hmem2 with h | h | h | h | h <;> exact Event.noConfusion h
  · intro hmem2
    rcases hmem _ hmem2 with h | h | h | h | h <;> exact Event.noConfusion h
  · intro hmem2
    rcases hmem _ hmem2 with h | h | h | h | h
    · exact Event.noConfusion h
    · injection h with h3
      omega
    · exact Event.noConfusion h
    · exact Event.noConfusion h
    · exact Event.noConfusion h
  · show (step env cfg idx (decide (idx + 1 < n)) st).st.batch = st.batch
    rw [hst, hourlySt_batch]
    exact hpres.2.2
  · show (step env cfg idx (decide (idx + 1 < n)) st).st.daily = st.daily
    rw [hst, hourlySt_daily]
    exact hpres.2.1
  · show (step env cfg idx (decide (idx + 1 < n)) st).st.ckpt = st.ckpt ∨ _
    rw [hst, hourlySt_ckpt]
    exact pollLoop_ckpt env idx (env.polls idx) st

/-- Witness for C10's amended theorem at the counterexample's reachable
state. -/
theorem c10_daily_stop_witness :
    dailyStopContract envAll cfgTiny 2 (-1) 1 [] ⟨1, 1, [0], some 0, 1⟩ :=
  c10_daily_stop envAll cfgTiny 2 (-1) 1 [] ⟨1, 1, [0], some 0, 1⟩
    (fun _ => rfl) (by decide) (by decide)

end GabiZap
